import Mathlib

set_option maxHeartbeats 1000000

/- Shallow embedding of `honeybees/reporter.py` (class `Reporter`).

   Numeric numpy scalars and arrays are embedded as extended rationals
   (`PyFloat`): IEEE floating point is abstracted to exact rational
   arithmetic together with signed infinities and NaN; rounding,
   signed zeros and fixed-width integer wraparound are outside the
   model, so integer and float dtypes coincide here.  Filesystem
   effects (directory creation, file writes under the export root) are
   recorded in an event log carried by the reporter state.  Python
   exceptions are modelled as `Except.error` with a message tag;
   out-of-bounds array access, which the jit-compiled source leaves
   undefined, is also modelled as an error. -/

inductive PyFloat where
  | fin : ℚ → PyFloat
  | inf : Bool → PyFloat
  | nan : PyFloat
  deriving DecidableEq

/- IEEE addition at the extended-rational abstraction. -/
def PyFloat.add : PyFloat → PyFloat → PyFloat
  | .nan, _ => .nan
  | _, .nan => .nan
  | .fin a, .fin b => .fin (a + b)
  | .fin _, .inf s => .inf s
  | .inf s, .fin _ => .inf s
  | .inf s, .inf t => if s = t then .inf s else .nan

/- IEEE division at the extended-rational abstraction: x / 0 is an
   infinity for x not zero and NaN for x = 0 (the zero-count case of
   `mean_per_ID`). -/
def PyFloat.div : PyFloat → PyFloat → PyFloat
  | .nan, _ => .nan
  | _, .nan => .nan
  | .fin a, .fin b =>
    if b = 0 then (if a = 0 then .nan else .inf (decide (a < 0)))
    else .fin (a / b)
  | .inf s, .fin b => if b < 0 then .inf (!s) else .inf s
  | .fin _, .inf _ => .fin 0
  | .inf _, .inf _ => .nan

def PyFloat.isFinite : PyFloat → Bool
  | .fin _ => true
  | _ => false

/- `math.isinf` from the source: true exactly on the two infinities. -/
def PyFloat.isinf : PyFloat → Bool
  | .inf _ => true
  | _ => false

/- A Python value as it flows through the reporter: plain ints and
   floats, None, strings, Python lists, and numpy arrays (`vnd`; a
   numpy scalar, `np.generic`, is a size-one `vnd`). -/
inductive PyVal where
  | vint : Int → PyVal
  | vfloat : PyFloat → PyVal
  | vnone : PyVal
  | vstr : String → PyVal
  | vlist : List PyVal → PyVal
  | vnd : List PyFloat → PyVal

/- `v.item()`: unwrap a size-one numpy value to a Python scalar;
   anything else raises. -/
def PyVal.item : PyVal → Except String PyVal
  | .vnd [x] => .ok (.vfloat x)
  | .vnd _ => .error "ValueError: can only convert an array of size 1 to a Python scalar"
  | _ => .error "AttributeError: object has no attribute item"

namespace Reporter

/- `Reporter.check_value` (reporter.py lines 64-73): the value must be
   a Python int or float or None, and a float must not be infinite
   (NaN passes: the assert is `not isinf`). -/
def check_value : PyVal → Except String Unit
  | .vint _ => .ok ()
  | .vnone => .ok ()
  | .vfloat f =>
    if f.isinf then .error "AssertionError: value is infinite" else .ok ()
  | _ => .error "ValueError: value is not Python float or int"

/- One entry of the config report table.  Optional keys of the Python
   dict are `Option` fields; `function` distinguishes a missing key
   (`none`) from an explicit null (`some none`).  `ids` stores the
   size of the config ids array, the only use the source makes of it. -/
structure Conf where
  save : Option String
  format : Option String
  initial_only : Option Bool
  frequency : Option String
  function : Option (Option String)
  type : String
  varname : String
  split : Option Bool
  ids : Option Nat
  scale : Option String

/- The key under which a value is buffered: a plain name, or a
   (name, ID) pair for split directives. -/
inductive RName where
  | s : String → RName
  | pair : String → String → RName

def RName.str : RName → String
  | .s n => n
  | .pair n i => "(" ++ n ++ ", " ++ i ++ ")"

/- One slot of `self.variables`: a plain list, or an ID-keyed dict of
   lists for split directives. -/
inductive VarEntry where
  | flat : List PyVal → VarEntry
  | split : List (String × List PyVal) → VarEntry

/- One agent collection: named attributes plus the id list used by
   split directives. -/
structure AgentColl where
  attrs : List (String × PyVal)
  ids : List String

/- What the external model object supplies to one `step()` call:
   `current_time` is already the isoformat string of the recorded
   simulation time. -/
structure StepInput where
  current_time : String
  current_timestep : Nat
  agents : List (String × AgentColl)

/- A filesystem effect under the export root: `mkdir folder` or
   `write folder filename` (folder is empty for files written directly
   under the root). -/
inductive FSEvent where
  | mkdir : String → FSEvent
  | write : String → String → FSEvent
  deriving DecidableEq

/- The reporter state: `self.variables` (the Lean keyword forces the
   field name `vars`), `self.timesteps`, and the log of filesystem
   effects performed so far. -/
structure RState where
  vars : List (String × VarEntry)
  timesteps : List String
  events : List FSEvent

/- Association-list lookup and insertion-order-preserving update,
   modelling Python dict access. -/
def lookupA {α : Type} : List (String × α) → String → Option α
  | [], _ => none
  | p :: rest, k => if p.1 = k then some p.2 else lookupA rest k

def setA {α : Type} : List (String × α) → String → α → List (String × α)
  | [], k, v => [(k, v)]
  | p :: rest, k, v => if p.1 = k then (k, v) :: rest else p :: setA rest k v

/- `.isoformat().replace(dash, empty).replace(colon, empty)`: both
   replacements delete every occurrence of a single character, hence
   together they filter those characters out. -/
def stripSep (t : String) : String :=
  String.mk (t.data.filter (fun c => c != '-' && c != ':'))

def missing_format_msg (name : String) : String :=
  "Export format must be specified for " ++ name ++ " in config file (npy/csv/xlsx)."

/- `value.tolist()` / `len(value)` preparation of the csv branch: a
   scalar has no len and raises. -/
def csv_items : PyVal → Except String (List PyVal)
  | .vnd l => .ok (l.map PyVal.vfloat)
  | .vlist l => .ok l
  | .vstr s => .ok (s.data.map (fun c => .vstr (String.mk [c])))
  | _ => .error "TypeError: object has no len"

/- `Reporter.export_value` (lines 75-108).  The folder under the
   export root is created first, unconditionally; then the format key
   is checked; the filename is `initial` exactly when the directive
   has a `frequency` key equal to the string initial_only, otherwise
   the stripped isoformat of the last recorded timestep.  The advisory
   log message for large csv exports is not a state change and is not
   modelled. -/
def export_value (name : String) (value : PyVal) (conf : Conf) (st : RState) :
    RState × Except String Unit :=
  let st1 : RState := ⟨st.vars, st.timesteps, st.events ++ [FSEvent.mkdir name]⟩
  match conf.format with
  | none => (st1, .error (missing_format_msg name))
  | some fmt =>
    let fnE : Except String String :=
      if conf.frequency = some "initial_only" then .ok "initial"
      else
        match st1.timesteps.getLast? with
        | some t => .ok (stripSep t)
        | none => .error "IndexError: list index out of range"
    match fnE with
    | .error e => (st1, .error e)
    | .ok fn =>
      if fmt = "npy" then
        (⟨st1.vars, st1.timesteps, st1.events ++ [FSEvent.write name (fn ++ ".npy")]⟩,
          .ok ())
      else if fmt = "csv" then
        match csv_items value with
        | .error e => (st1, .error e)
        | .ok _ =>
          (⟨st1.vars, st1.timesteps, st1.events ++ [FSEvent.write name (fn ++ ".csv")]⟩,
            .ok ())
      else (st1, .error (fmt ++ " not recognized"))

def check_all : List PyVal → Except String Unit
  | [] => .ok ()
  | v :: rest =>
    match check_value v with
    | .ok _ => check_all rest
    | .error e => .error e

def items_of : List PyVal → Except String (List PyVal)
  | [] => .ok []
  | v :: rest =>
    match v.item with
    | .error e => .error e
    | .ok w =>
      match items_of rest with
      | .error e => .error e
      | .ok ws => .ok (w :: ws)

/- Lines 118-126 of `Reporter.report_value`: a numpy value of size one
   is unwrapped with `.item()` and only then checked; a Python list
   has each element unwrapped with `.item()` and checked.  Every other
   value, including a plain Python float, passes through unchecked. -/
def unwrap_value : PyVal → Except String PyVal
  | .vnd l =>
    match l with
    | [x] =>
      match check_value (.vfloat x) with
      | .ok _ => .ok (.vfloat x)
      | .error e => .error e
    | _ => .ok (.vnd l)
  | .vlist l =>
    match items_of l with
    | .error e => .error e
    | .ok l2 =>
      match check_all l2 with
      | .ok _ => .ok (.vlist l2)
      | .error e => .error e
  | v => .ok v

/- The export call inside `report_value` passes `name` through to
   `os.path.join`, which raises on a tuple name. -/
def do_export (name : RName) (value : PyVal) (conf : Conf) (st : RState) :
    RState × Except String Unit :=
  match name with
  | .s n => export_value n value conf st
  | .pair _ _ => (st, .error "TypeError: path join does not accept a tuple")

/- The buffering tail of `report_value` (lines 140-154).  The
   KeyError handler in the source is unreachable because the two `in`
   checks create the slots first; appending through a key of the wrong
   shape raises instead. -/
def save_var (name : RName) (value : PyVal) (st : RState) : RState × Except String Unit :=
  match name with
  | .pair n id =>
    match lookupA st.vars n with
    | none =>
      (⟨setA st.vars n (.split [(id, [value])]), st.timesteps, st.events⟩, .ok ())
    | some (.split d) =>
      match lookupA d id with
      | none =>
        (⟨setA st.vars n (.split (setA d id [value])), st.timesteps, st.events⟩, .ok ())
      | some l =>
        (⟨setA st.vars n (.split (setA d id (l ++ [value]))), st.timesteps, st.events⟩,
          .ok ())
    | some (.flat _) => (st, .error "TypeError: ID-keyed report into a plain list")
  | .s n =>
    match lookupA st.vars n with
    | none => (⟨setA st.vars n (.flat [value]), st.timesteps, st.events⟩, .ok ())
    | some (.flat l) =>
      (⟨setA st.vars n (.flat (l ++ [value])), st.timesteps, st.events⟩, .ok ())
    | some (.split _) => (st, .error "AttributeError: dict object has no attribute append")

/- `Reporter.report_value` (lines 110-154): unwrap and check, validate
   the save key, export when requested (gated by initial_only and the
   model timestep), then buffer when requested. -/
def report_value (m : StepInput) (name : RName) (value : PyVal) (conf : Conf) (st : RState) :
    RState × Except String Unit :=
  match unwrap_value value with
  | .error e => (st, .error e)
  | .ok value =>
    match conf.save with
    | none =>
      (st, .error ("Save type must be specified for " ++ name.str ++ " in config file."))
    | some sv =>
      if sv = "save" ∨ sv = "export" ∨ sv = "save+export" then
        let ex : RState × Except String Unit :=
          if sv = "export" ∨ sv = "save+export" then
            if conf.initial_only = some true then
              if m.current_timestep = 0 then do_export name value conf st
              else (st, .ok ())
            else do_export name value conf st
          else (st, .ok ())
        match ex with
        | (st2, .error e) => (st2, .error e)
        | (st2, .ok _) =>
          if sv = "save" ∨ sv = "save+export" then save_var name value st2
          else (st2, .ok ())
      else
        (st, .error ("Save type for " ++ name.str ++
          " in config file must be save, save+export or export."))

/- Negative numpy indices count from the end of the array. -/
def idxOf (n : Nat) (g : Int) : Int := if g < 0 then g + n else g

/- The loop of `Reporter.sum_per_ID` (lines 193-199): assert the id is
   below the group count (nothing rules out negative ids), then
   accumulate into the indexed slot. -/
def sumLoop (n : Nat) : List (PyFloat × Int) → List PyFloat → Except String (List PyFloat)
  | [], acc => .ok acc
  | p :: rest, acc =>
    if p.2 < (n : Int) then
      if 0 ≤ idxOf n p.2 ∧ idxOf n p.2 < (n : Int) then
        sumLoop n rest (acc.set (idxOf n p.2).toNat
          (PyFloat.add (acc.getD (idxOf n p.2).toNat (.fin 0)) p.1))
      else .error "IndexError: index out of bounds"
    else .error "AssertionError: group id not below number of groups"

/- `Reporter.sum_per_ID` (lines 180-200). -/
def sum_per_ID (values : List PyFloat) (group_ids : List Int) (n_groups : Nat) :
    Except String (List PyFloat) :=
  if values.length = group_ids.length then
    sumLoop n_groups (values.zip group_ids) (List.replicate n_groups (.fin 0))
  else .error "AssertionError: size mismatch between values and group ids"

/- The loop of `Reporter.mean_per_ID` (lines 169-177): same asserts,
   accumulating a count and a sum per group. -/
def meanLoop (n : Nat) : List (PyFloat × Int) → List Nat → List PyFloat →
    Except String (List Nat × List PyFloat)
  | [], cnt, sums => .ok (cnt, sums)
  | p :: rest, cnt, sums =>
    if p.2 < (n : Int) then
      if 0 ≤ idxOf n p.2 ∧ idxOf n p.2 < (n : Int) then
        meanLoop n rest (cnt.set (idxOf n p.2).toNat (cnt.getD (idxOf n p.2).toNat 0 + 1))
          (sums.set (idxOf n p.2).toNat
            (PyFloat.add (sums.getD (idxOf n p.2).toNat (.fin 0)) p.1))
      else .error "IndexError: index out of bounds"
    else .error "AssertionError: group id not below number of groups"

/- `Reporter.mean_per_ID` (lines 156-178): the final elementwise
   division follows IEEE semantics, so an empty group divides by zero
   and yields a non-finite value. -/
def mean_per_ID (values : List PyFloat) (group_ids : List Int) (n_groups : Nat) :
    Except String (List PyFloat) :=
  if values.length = group_ids.length then
    Except.map
      (fun r => List.zipWith (fun (s : PyFloat) (c : Nat) => PyFloat.div s (.fin (c : ℚ)))
        r.2 r.1)
      (meanLoop n_groups (values.zip group_ids) (List.replicate n_groups 0)
        (List.replicate n_groups (.fin 0)))
  else .error "AssertionError: size mismatch between values and group ids"

/- Conversions used when a per-group reduction is configured: the
   value and group-id attributes must be numpy arrays, and group ids
   must be integral (a float-typed index is rejected by the jit
   compiler). -/
def as_nd : PyVal → Except String (List PyFloat)
  | .vnd l => .ok l
  | _ => .error "TypeError: expected a numpy array"

def to_int_ids : List PyFloat → Except String (List Int)
  | [] => .ok []
  | .fin q :: rest =>
    if q.den = 1 then
      match to_int_ids rest with
      | .ok l => .ok (q.num :: l)
      | .error e => .error e
    else .error "TypeError: array index must be integral"
  | _ :: _ => .error "TypeError: array index must be integral"

/- `np.sum` and `np.mean` over a whole attribute, used by directives
   with a reduction but no ids key.  Both return a numpy scalar,
   embedded as a size-one array. -/
def np_scalar : PyVal → Except String PyFloat
  | .vint n => .ok (.fin (n : ℚ))
  | .vfloat f => .ok f
  | _ => .error "TypeError: not numeric"

def np_elems_list : List PyVal → Except String (List PyFloat)
  | [] => .ok []
  | v :: rest =>
    match np_scalar v with
    | .error e => .error e
    | .ok f =>
      match np_elems_list rest with
      | .error e => .error e
      | .ok fs => .ok (f :: fs)

def np_elems : PyVal → Except String (List PyFloat)
  | .vnd l => .ok l
  | .vlist l => np_elems_list l
  | .vint n => .ok [.fin (n : ℚ)]
  | .vfloat f => .ok [f]
  | _ => .error "TypeError: not numeric"

def sumF (l : List PyFloat) : PyFloat := l.foldl PyFloat.add (.fin 0)

def np_sum (v : PyVal) : Except String PyVal :=
  match np_elems v with
  | .ok l => .ok (.vnd [sumF l])
  | .error e => .error e

def np_mean (v : PyVal) : Except String PyVal :=
  match np_elems v with
  | .ok l => .ok (.vnd [PyFloat.div (sumF l) (.fin (l.length : ℚ))])
  | .error e => .error e

/- `Reporter.parse_agent_data` (lines 202-237).  A null function
   reports the (deep-copied, which is the identity in this pure
   embedding) value literally; otherwise the reduction tag is
   dispatched, per group when an ids key is present.  Config entries
   hold no callables, so the `callable(function)` branch is vacuous
   here. -/
def parse_agent_data (m : StepInput) (name : RName) (values : PyVal) (agents : AgentColl)
    (conf : Conf) (st : RState) : RState × Except String Unit :=
  match conf.function with
  | none => (st, .error "KeyError: function")
  | some fopt =>
    match fopt with
    | none => report_value m name values conf st
    | some fname =>
      match conf.ids with
      | some n_groups =>
        match conf.scale with
        | none => (st, .error "KeyError: scale")
        | some sc =>
          match lookupA agents.attrs sc with
          | none =>
            (st, .error ("AttributeError: agents object has no attribute " ++ sc))
          | some gv =>
            if fname = "mean" ∨ fname = "sum" then
              match as_nd values with
              | .error e => (st, .error e)
              | .ok vals =>
                match as_nd gv with
                | .error e => (st, .error e)
                | .ok gfl =>
                  match to_int_ids gfl with
                  | .error e => (st, .error e)
                  | .ok gids =>
                    match (if fname = "mean" then mean_per_ID vals gids n_groups
                           else sum_per_ID vals gids n_groups) with
                    | .ok res => report_value m name (.vnd res) conf st
                    | .error e => (st, .error e)
            else (st, .error (fname ++ " function unknown"))
      | none =>
        if fname = "mean" ∨ fname = "sum" then
          match lookupA agents.attrs conf.varname with
          | none =>
            (st, .error ("AttributeError: agents object has no attribute " ++ conf.varname))
          | some v2 =>
            match (if fname = "mean" then np_mean v2 else np_sum v2) with
            | .ok res => report_value m name res conf st
            | .error e => (st, .error e)
        else (st, .error (fname ++ " function unknown"))

/- Iterating a Python value, for the zip of a split directive: an
   ndarray yields numpy scalars, a string yields one-character
   strings. -/
def iter_elems : PyVal → Option (List PyVal)
  | .vlist l => some l
  | .vnd l => some (l.map (fun x => .vnd [x]))
  | .vstr s => some (s.data.map (fun c => .vstr (String.mk [c])))
  | _ => none

def split_loop (m : StepInput) (name : String) (agents : AgentColl) (conf : Conf) :
    List (String × PyVal) → RState → RState × Except String Unit
  | [], st => (st, .ok ())
  | p :: rest, st =>
    match parse_agent_data m (.pair name p.1) p.2 agents conf st with
    | (st2, .ok _) => split_loop m name agents conf rest st2
    | (st2, .error e) => (st2, .error e)

/- `Reporter.extract_agent_data` (lines 239-255). -/
def extract_agent_data (m : StepInput) (name : String) (conf : Conf) (st : RState) :
    RState × Except String Unit :=
  match lookupA m.agents conf.type with
  | none => (st, .error ("AttributeError: agents object has no attribute " ++ conf.type))
  | some agents =>
    match lookupA agents.attrs conf.varname with
    | none =>
      (st, .error ("Trying to export " ++ conf.varname ++
        ", but no such attribute exists for agent type " ++ conf.type))
    | some values =>
      if conf.split = some true then
        match iter_elems values with
        | none => (st, .error "TypeError: zip argument is not iterable")
        | some vl => split_loop m name agents conf (agents.ids.zip vl) st
      else parse_agent_data m (.s name) values agents conf st

def run_directives (m : StepInput) : List (String × Conf) → RState → RState × Except String Unit
  | [], st => (st, .ok ())
  | p :: rest, st =>
    match extract_agent_data m p.1 p.2 st with
    | (st2, .ok _) => run_directives m rest st2
    | (st2, .error e) => (st2, .error e)

/- `Reporter.step` (lines 257-262): record the current time, then run
   every directive in declared order.  `cfg = none` covers both a None
   config and a config without a report section. -/
def step (cfg : Option (List (String × Conf))) (m : StepInput) (st : RState) :
    RState × Except String Unit :=
  let st1 : RState := ⟨st.vars, st.timesteps ++ [m.current_time], st.events⟩
  match cfg with
  | none => (st1, .ok ())
  | some entries => run_directives m entries st1

/- A run: successive `step()` calls, each fed the model state of its
   tick; a raised error aborts the run with the state reached so far. -/
def run_steps (cfg : Option (List (String × Conf))) :
    List StepInput → RState → RState × Except String Unit
  | [], st => (st, .ok ())
  | m :: rest, st =>
    match step cfg m st with
    | (st2, .ok _) => run_steps cfg rest st2
    | (st2, .error e) => (st2, .error e)

/- The pandas table built for one buffered series by `Reporter.report`:
   from an ID-keyed dict, from a timestep-keyed dict of iterables, or
   as a single named column. -/
inductive RTable where
  | fromDict : List (String × List PyVal) → List String → RTable
  | fromRows : List (String × PyVal) → RTable
  | column : List PyVal → List String → String → RTable

def is_iterable : PyVal → Bool
  | .vlist _ => true
  | .vnd _ => true
  | .vstr _ => true
  | _ => false

/- Lines 267-279: the DataFrame construction, which inspects the first
   buffered value (raising on an empty series). -/
def build_table (timesteps : List String) (name : String) : VarEntry → Except String RTable
  | .split d => .ok (.fromDict d timesteps)
  | .flat [] => .error "IndexError: list index out of range"
  | .flat (v :: vs) =>
    if is_iterable v then .ok (.fromRows (timesteps.zip (v :: vs)))
    else .ok (.column (v :: vs) timesteps name)

def table_format_msg (name : String) : String :=
  "Key format not specified in config file for " ++ name

/- The loop of `Reporter.report` (lines 267-291): per buffered name,
   build the table, then look the directive up again in the config to
   read its format, and write `name.format` under the export root. -/
def report_loop (cfg : Option (List (String × Conf))) (timesteps : List String) :
    List (String × VarEntry) → RState → RState × Except String Unit
  | [], st => (st, .ok ())
  | p :: rest, st =>
    match build_table timesteps p.1 p.2 with
    | .error e => (st, .error e)
    | .ok _ =>
      match cfg with
      | none => (st, .error "TypeError: config has no report table")
      | some entries =>
        match lookupA entries p.1 with
        | none => (st, .error ("KeyError: " ++ p.1))
        | some conf =>
          match conf.format with
          | none => (st, .error (table_format_msg p.1))
          | some fmt =>
            if fmt = "csv" ∨ fmt = "xlsx" ∨ fmt = "npy" then
              report_loop cfg timesteps rest
                ⟨st.vars, st.timesteps, st.events ++ [FSEvent.write "" (p.1 ++ "." ++ fmt)]⟩
            else (st, .error ("save_to format " ++ fmt ++ " unknown"))

/- `Reporter.report` (lines 264-292): `report_dict` is created empty,
   never filled by the loop, and returned. -/
def report (cfg : Option (List (String × Conf))) (st : RState) :
    RState × Except String (List (String × RTable)) :=
  let report_dict : List (String × RTable) := []
  match report_loop cfg st.timesteps st.vars st with
  | (st2, .ok _) => (st2, .ok report_dict)
  | (st2, .error e) => (st2, .error e)

end Reporter

open Reporter

/- Specification-side definitions the theorems compare the embedding
   against. -/

def isError {α : Type} : Except String α → Bool
  | .error _ => true
  | .ok _ => false

/- The buffered series of a plain (non-split) name: an absent slot
   reads as the empty series, an ID-keyed slot has no flat series. -/
def varSeries (st : RState) (name : String) : Option (List PyVal) :=
  match lookupA st.vars name with
  | none => some []
  | some (.flat l) => some l
  | some (.split _) => none

def isWriteUnder (name : String) : FSEvent → Bool
  | .write folder _ => folder == name
  | .mkdir _ => false

def writesUnder (name : String) (evs : List FSEvent) : List FSEvent :=
  evs.filter (isWriteUnder name)

/- Number of indices carrying group id g, and the exact sum of the
   values at those indices. -/
def countSpec (G : List Int) (g : Nat) : Nat :=
  (G.filter (fun x => x == (g : Int))).length

def sumSpecP (ps : List (ℚ × Int)) (g : Nat) : ℚ :=
  (ps.filter (fun p => p.2 == (g : Int))).foldr (fun p a => p.1 + a) 0

def sumSpec (V : List ℚ) (G : List Int) (g : Nat) : ℚ := sumSpecP (V.zip G) g

/- Pure accumulator loops mirroring the reducers over exact rationals
   and counts. -/
def accQ : List (ℚ × Int) → List ℚ → List ℚ
  | [], acc => acc
  | p :: rest, acc => accQ rest (acc.set p.2.toNat (acc.getD p.2.toNat 0 + p.1))

def accN : List (ℚ × Int) → List Nat → List Nat
  | [], acc => acc
  | p :: rest, acc => accN rest (acc.set p.2.toNat (acc.getD p.2.toNat 0 + 1))

/- Small getD and set list facts, proved structurally. -/

theorem getD_set_self {α : Type} (d x : α) : ∀ (l : List α) (i : Nat), i < l.length →
    (l.set i x).getD i d = x
  | _ :: _, 0, _ => rfl
  | _ :: l, i + 1, h => getD_set_self d x l i (Nat.lt_of_succ_lt_succ (by simpa using h))
  | [], _, h => absurd h (by simp)

theorem getD_set_other {α : Type} (d x : α) : ∀ (l : List α) (i j : Nat), i ≠ j →
    (l.set i x).getD j d = l.getD j d
  | [], _, _, _ => rfl
  | _ :: _, 0, 0, h => absurd rfl h
  | _ :: _, 0, _ + 1, _ => rfl
  | _ :: _, _ + 1, 0, _ => rfl
  | _ :: l, i + 1, j + 1, h => getD_set_other d x l i j (fun hij => h (by omega))

theorem getD_map {α β : Type} (f : α → β) (d : α) : ∀ (l : List α) (i : Nat),
    (l.map f).getD i (f d) = f (l.getD i d)
  | [], _ => rfl
  | _ :: _, 0 => rfl
  | _ :: l, i + 1 => getD_map f d l i

theorem set_map {α β : Type} (f : α → β) : ∀ (l : List α) (i : Nat) (x : α),
    (l.map f).set i (f x) = (l.set i x).map f
  | [], _, _ => rfl
  | _ :: _, 0, _ => rfl
  | a :: l, i + 1, x => congrArg (fun t => f a :: t) (set_map f l i x)

theorem getD_replicate {α : Type} (d : α) : ∀ (n i : Nat), (List.replicate n d).getD i d = d
  | 0, _ => rfl
  | _ + 1, 0 => rfl
  | n + 1, i + 1 => getD_replicate d n i

theorem eq_of_getD {α : Type} (d : α) : ∀ (a b : List α), a.length = b.length →
    (∀ i, i < a.length → a.getD i d = b.getD i d) → a = b
  | [], [], _, _ => rfl
  | x :: a, y :: b, h, hp => by
    have h0 : x = y := hp 0 (by simp)
    have ht : a = b :=
      eq_of_getD d a b (by simpa using h) (fun i hi => hp (i + 1) (by simpa using hi))
    rw [h0, ht]
  | [], _ :: _, h, _ => by simp at h
  | _ :: _, [], h, _ => by simp at h

theorem getD_zipWith {α β γ : Type} (f : α → β → γ) (d0 : γ) (da : α) (db : β) :
    ∀ (a : List α) (b : List β) (i : Nat), i < a.length → i < b.length →
    (List.zipWith f a b).getD i d0 = f (a.getD i da) (b.getD i db)
  | _ :: _, _ :: _, 0, _, _ => rfl
  | _ :: a, _ :: b, i + 1, h1, h2 =>
    getD_zipWith f d0 da db a b i (Nat.lt_of_succ_lt_succ (by simpa using h1))
      (Nat.lt_of_succ_lt_succ (by simpa using h2))
  | [], _, _, h1, _ => absurd h1 (by simp)
  | _ :: _, [], _, _, h2 => absurd h2 (by simp)

theorem mem_zip_right {α β : Type} : ∀ (a : List α) (b : List β), a.length = b.length →
    ∀ x ∈ b, ∃ y, (y, x) ∈ a.zip b
  | [], [], _, _, hx => absurd hx (by simp)
  | [], _ :: _, h, _, _ => by simp at h
  | _ :: _, [], _, _, hx => absurd hx (by simp)
  | y :: a, z :: b, h, x, hx => by
    rcases List.mem_cons.1 hx with h1 | h2
    · exact ⟨y, by simp [h1]⟩
    · rcases mem_zip_right a b (by simpa using h) x h2 with ⟨w, hw⟩
      exact ⟨w, by simp [hw]⟩

theorem accQ_length : ∀ (ps : List (ℚ × Int)) (acc : List ℚ),
    (accQ ps acc).length = acc.length
  | [], _ => rfl
  | p :: rest, acc => by
    rw [accQ, accQ_length rest]
    simp

theorem accN_length : ∀ (ps : List (ℚ × Int)) (acc : List Nat),
    (accN ps acc).length = acc.length
  | [], _ => rfl
  | p :: rest, acc => by
    rw [accN, accN_length rest]
    simp

theorem getD_map_range {α : Type} (f : Nat → α) (d : α) (N i : Nat) (h : i < N) :
    ((List.range N).map f).getD i d = f i := by
  rw [List.getD_eq_getElem?_getD]
  simp [List.getElem?_range, h]

theorem accQ_getD : ∀ (ps : List (ℚ × Int)) (acc : List ℚ) (g : Nat),
    g < acc.length → (∀ p ∈ ps, 0 ≤ p.2 ∧ p.2 < (acc.length : Int)) →
    (accQ ps acc).getD g 0 = acc.getD g 0 + sumSpecP ps g
  | [], acc, g, _, _ => by simp [accQ, sumSpecP]
  | p :: rest, acc, g, hg, hp => by
    have h0 : (0 : Int) ≤ p.2 := (hp p (by simp)).1
    have h1 : p.2 < (acc.length : Int) := (hp p (by simp)).2
    have hlt : p.2.toNat < acc.length := by omega
    have hrec := accQ_getD rest (acc.set p.2.toNat (acc.getD p.2.toNat 0 + p.1)) g
      (by simpa using hg)
      (by
        intro q hq
        have := hp q (by simp [hq])
        simpa using this)
    rw [accQ, hrec]
    by_cases hc : p.2.toNat = g
    · subst hc
      rw [getD_set_self _ _ _ _ hlt]
      have hpg : (p.2 == ((p.2.toNat : Nat) : Int)) = true := by
        rw [beq_iff_eq]
        omega
      simp only [sumSpecP, List.filter_cons, hpg, if_true, List.foldr_cons]
      ring
    · rw [getD_set_other _ _ _ _ _ hc]
      have hpg : (p.2 == (g : Int)) = false := by
        rw [beq_eq_false_iff_ne]
        omega
      simp only [sumSpecP, List.filter_cons, hpg]
      simp

theorem accN_getD : ∀ (ps : List (ℚ × Int)) (acc : List Nat) (g : Nat),
    g < acc.length → (∀ p ∈ ps, 0 ≤ p.2 ∧ p.2 < (acc.length : Int)) →
    (accN ps acc).getD g 0
      = acc.getD g 0 + (ps.filter (fun p => p.2 == (g : Int))).length
  | [], acc, g, _, _ => by simp [accN]
  | p :: rest, acc, g, hg, hp => by
    have h0 : (0 : Int) ≤ p.2 := (hp p (by simp)).1
    have h1 : p.2 < (acc.length : Int) := (hp p (by simp)).2
    have hlt : p.2.toNat < acc.length := by omega
    have hrec := accN_getD rest (acc.set p.2.toNat (acc.getD p.2.toNat 0 + 1)) g
      (by simpa using hg)
      (by
        intro q hq
        have := hp q (by simp [hq])
        simpa using this)
    rw [accN, hrec]
    by_cases hc : p.2.toNat = g
    · subst hc
      rw [getD_set_self _ _ _ _ hlt]
      have hpg : (p.2 == ((p.2.toNat : Nat) : Int)) = true := by
        rw [beq_iff_eq]
        omega
      simp only [List.filter_cons, hpg, if_true, List.length_cons]
      omega
    · rw [getD_set_other _ _ _ _ _ hc]
      have hpg : (p.2 == (g : Int)) = false := by
        rw [beq_eq_false_iff_ne]
        omega
      simp only [List.filter_cons, hpg]
      simp

/- With equal lengths, the zip carries exactly the group-id
   occurrences of G. -/
theorem count_zip (g : Nat) : ∀ (V : List ℚ) (G : List Int), V.length = G.length →
    ((V.zip G).filter (fun p => p.2 == (g : Int))).length = countSpec G g
  | [], [], _ => rfl
  | [], _ :: _, h => by simp at h
  | _ :: _, [], h => by simp at h
  | v :: V, x :: G, h => by
    have ih := count_zip g V G (by simpa using h)
    by_cases hx : (x == (g : Int)) = true
    · simp only [countSpec, List.zip_cons_cons, List.filter_cons, hx, if_true,
        List.length_cons] at ih ⊢
      omega
    · simp only [countSpec, List.zip_cons_cons, List.filter_cons, hx] at ih ⊢
      simpa using ih

/- A group no index maps to sums to zero. -/
theorem sumSpec_zero (V : List ℚ) (G : List Int) (g : Nat) (h : countSpec G g = 0) :
    sumSpec V G g = 0 := by
  have hnil : G.filter (fun x => x == (g : Int)) = [] := List.length_eq_zero.1 h
  have hG : ∀ x ∈ G, ¬((x == (g : Int)) = true) := by
    intro x hx hxg
    have hmem : x ∈ G.filter (fun x => x == (g : Int)) := List.mem_filter.2 ⟨hx, hxg⟩
    rw [hnil] at hmem
    simp at hmem
  have hzip : (V.zip G).filter (fun p => p.2 == (g : Int)) = [] := by
    rw [List.filter_eq_nil_iff]
    intro p hp
    obtain ⟨a, b⟩ := p
    exact hG b (List.of_mem_zip hp).2
  simp [sumSpec, sumSpecP, hzip]

/- The jit loop agrees with the pure accumulator when every group id
   is in range. -/
theorem sumLoop_spec : ∀ (ps : List (ℚ × Int)) (acc : List ℚ),
    (∀ p ∈ ps, 0 ≤ p.2 ∧ p.2 < (acc.length : Int)) →
    Reporter.sumLoop acc.length (ps.map (Prod.map PyFloat.fin id)) (acc.map PyFloat.fin)
      = Except.ok ((accQ ps acc).map PyFloat.fin)
  | [], acc, _ => by simp [Reporter.sumLoop, accQ]
  | p :: rest, acc, hp => by
    have h0 : (0 : Int) ≤ p.2 := (hp p (by simp)).1
    have h1 : p.2 < (acc.length : Int) := (hp p (by simp)).2
    have hidx : idxOf acc.length p.2 = p.2 := by
      rw [Reporter.idxOf, if_neg (by omega)]
    simp only [List.map_cons, Prod.map, id]
    rw [Reporter.sumLoop]
    rw [if_pos h1, hidx, if_pos ⟨h0, h1⟩]
    rw [getD_map PyFloat.fin 0 acc p.2.toNat]
    have hadd : PyFloat.add (PyFloat.fin (acc.getD p.2.toNat 0)) (PyFloat.fin p.1)
        = PyFloat.fin (acc.getD p.2.toNat 0 + p.1) := rfl
    rw [hadd, set_map]
    have ih := sumLoop_spec rest (acc.set p.2.toNat (acc.getD p.2.toNat 0 + p.1))
      (by
        intro q hq
        have := hp q (by simp [hq])
        simpa using this)
    rw [List.length_set] at ih
    rw [ih, accQ]

theorem meanLoop_spec : ∀ (ps : List (ℚ × Int)) (cnt : List Nat) (acc : List ℚ),
    cnt.length = acc.length →
    (∀ p ∈ ps, 0 ≤ p.2 ∧ p.2 < (acc.length : Int)) →
    Reporter.meanLoop acc.length (ps.map (Prod.map PyFloat.fin id)) cnt (acc.map PyFloat.fin)
      = Except.ok (accN ps cnt, (accQ ps acc).map PyFloat.fin)
  | [], cnt, acc, _, _ => by simp [Reporter.meanLoop, accN, accQ]
  | p :: rest, cnt, acc, hcl, hp => by
    have h0 : (0 : Int) ≤ p.2 := (hp p (by simp)).1
    have h1 : p.2 < (acc.length : Int) := (hp p (by simp)).2
    have hidx : idxOf acc.length p.2 = p.2 := by
      rw [Reporter.idxOf, if_neg (by omega)]
    simp only [List.map_cons, Prod.map, id]
    rw [Reporter.meanLoop]
    rw [if_pos h1, hidx, if_pos ⟨h0, h1⟩]
    rw [getD_map PyFloat.fin 0 acc p.2.toNat]
    have hadd : PyFloat.add (PyFloat.fin (acc.getD p.2.toNat 0)) (PyFloat.fin p.1)
        = PyFloat.fin (acc.getD p.2.toNat 0 + p.1) := rfl
    rw [hadd, set_map]
    have ih := meanLoop_spec rest (cnt.set p.2.toNat (cnt.getD p.2.toNat 0 + 1))
      (acc.set p.2.toNat (acc.getD p.2.toNat 0 + p.1))
      (by simp [hcl])
      (by
        intro q hq
        have := hp q (by simp [hq])
        simpa using this)
    rw [List.length_set] at ih
    rw [ih, accN, accQ]

/- When every id can at least be wrapped (is at least -n) and some id
   violates the asserted upper bound, the loop raises. -/
theorem sumLoop_err (n : Nat) : ∀ (ps : List (PyFloat × Int)) (acc : List PyFloat),
    (∀ p ∈ ps, -(n : Int) ≤ p.2) → (∃ p ∈ ps, (n : Int) ≤ p.2) →
    isError (Reporter.sumLoop n ps acc) = true
  | [], _, _, hex => by simp at hex
  | p :: rest, acc, hall, hex => by
    by_cases hn : p.2 < (n : Int)
    · have hrest : ∃ q ∈ rest, (n : Int) ≤ q.2 := by
        rcases hex with ⟨q, hq, hqn⟩
        rcases List.mem_cons.1 hq with h1 | h2
        · subst h1
          omega
        · exact ⟨q, h2, hqn⟩
      have hplow : -(n : Int) ≤ p.2 := hall p (by simp)
      rw [Reporter.sumLoop, if_pos hn]
      have hb : 0 ≤ idxOf n p.2 ∧ idxOf n p.2 < (n : Int) := by
        rw [Reporter.idxOf]
        by_cases hneg : p.2 < 0
        · rw [if_pos hneg]
          omega
        · rw [if_neg hneg]
          omega
      rw [if_pos hb]
      exact sumLoop_err n rest _ (fun q hq => hall q (by simp [hq])) hrest
    · rw [Reporter.sumLoop, if_neg hn]
      rfl

theorem meanLoop_err (n : Nat) : ∀ (ps : List (PyFloat × Int)) (cnt : List Nat)
    (acc : List PyFloat),
    (∀ p ∈ ps, -(n : Int) ≤ p.2) → (∃ p ∈ ps, (n : Int) ≤ p.2) →
    isError (Reporter.meanLoop n ps cnt acc) = true
  | [], _, _, _, hex => by simp at hex
  | p :: rest, cnt, acc, hall, hex => by
    by_cases hn : p.2 < (n : Int)
    · have hrest : ∃ q ∈ rest, (n : Int) ≤ q.2 := by
        rcases hex with ⟨q, hq, hqn⟩
        rcases List.mem_cons.1 hq with h1 | h2
        · subst h1
          omega
        · exact ⟨q, h2, hqn⟩
      have hplow : -(n : Int) ≤ p.2 := hall p (by simp)
      rw [Reporter.meanLoop, if_pos hn]
      have hb : 0 ≤ idxOf n p.2 ∧ idxOf n p.2 < (n : Int) := by
        rw [Reporter.idxOf]
        by_cases hneg : p.2 < 0
        · rw [if_pos hneg]
          omega
        · rw [if_neg hneg]
          omega
      rw [if_pos hb]
      exact meanLoop_err n rest _ _ (fun q hq => hall q (by simp [hq])) hrest
    · rw [Reporter.meanLoop, if_neg hn]
      rfl

/- In-range behaviour of `sum_per_ID`, phrased against the exact
   per-group sums. -/
theorem sum_per_ID_eq (V : List ℚ) (G : List Int) (N : Nat)
    (hlen : V.length = G.length) (hids : ∀ g ∈ G, 0 ≤ g ∧ g < (N : Int)) :
    Reporter.sum_per_ID (V.map PyFloat.fin) G N
      = Except.ok ((List.range N).map (fun g => PyFloat.fin (sumSpec V G g))) := by
  have hids2 : ∀ p ∈ V.zip G, 0 ≤ p.2 ∧ p.2 < ((List.replicate N (0 : ℚ)).length : Int) := by
    intro p hp
    obtain ⟨a, b⟩ := p
    have := hids b (List.of_mem_zip hp).2
    simpa using this
  have hspec := sumLoop_spec (V.zip G) (List.replicate N 0) hids2
  rw [List.length_replicate, List.map_replicate] at hspec
  rw [Reporter.sum_per_ID, if_pos (by simpa using hlen), List.zip_map_left, hspec]
  congr 1
  apply eq_of_getD (PyFloat.fin 0)
  · simp [accQ_length]
  · intro i hi
    have hiN : i < N := by simpa [accQ_length] using hi
    rw [getD_map PyFloat.fin 0, getD_map_range _ _ _ _ hiN]
    have hacc := accQ_getD (V.zip G) (List.replicate N 0) i (by simpa using hiN)
      (by simpa using hids2)
    rw [hacc, getD_replicate, zero_add]
    rfl

/- In-range behaviour of `mean_per_ID`: each slot is the exact group
   sum divided (IEEE-style) by the group count. -/
theorem mean_per_ID_eq (V : List ℚ) (G : List Int) (N : Nat)
    (hlen : V.length = G.length) (hids : ∀ g ∈ G, 0 ≤ g ∧ g < (N : Int)) :
    Reporter.mean_per_ID (V.map PyFloat.fin) G N
      = Except.ok ((List.range N).map (fun g =>
          PyFloat.div (PyFloat.fin (sumSpec V G g))
            (PyFloat.fin ((countSpec G g : Nat) : ℚ)))) := by
  have hids2 : ∀ p ∈ V.zip G, 0 ≤ p.2 ∧ p.2 < ((List.replicate N (0 : ℚ)).length : Int) := by
    intro p hp
    obtain ⟨a, b⟩ := p
    have := hids b (List.of_mem_zip hp).2
    simpa using this
  have hspec := meanLoop_spec (V.zip G) (List.replicate N 0) (List.replicate N 0)
    (by simp) hids2
  rw [List.length_replicate, List.map_replicate] at hspec
  rw [Reporter.mean_per_ID, if_pos (by simpa using hlen), List.zip_map_left, hspec]
  simp only [Except.map]
  congr 1
  apply eq_of_getD (PyFloat.fin 0)
  · simp [accN_length, accQ_length]
  · intro i hi
    have hiN : i < N := by
      simpa [accN_length, accQ_length] using hi
    rw [getD_zipWith _ _ (PyFloat.fin 0) 0 _ _ _
      (by simpa [accQ_length] using hiN) (by simpa [accN_length] using hiN)]
    rw [getD_map_range _ _ _ _ hiN]
    rw [getD_map PyFloat.fin 0]
    have haccq := accQ_getD (V.zip G) (List.replicate N 0) i (by simpa using hiN)
      (by simpa using hids2)
    have haccn := accN_getD (V.zip G) (List.replicate N 0) i (by simpa using hiN)
      (by simpa using hids2)
    rw [haccq, haccn, getD_replicate, getD_replicate, zero_add, Nat.zero_add]
    rw [count_zip i V G hlen]
    rfl

theorem isError_map {α β : Type} (f : α → β) (e : Except String α) :
    isError (Except.map f e) = isError e := by
  cases e <;> rfl

/-- C3 (amended): with matching array lengths, both per-group reducers fail
with a fatal assertion-level error as soon as some group id reaches the
group count N (given that every id is at least -N, so that the traversal
reaches the offending id rather than running off the array), and they fail
on a length mismatch; but group ids in [-N, 0) are NOT rejected — the
single `group_id < n_groups` assert admits them and they wrap around to
index from the end of the accumulator. -/
theorem per_ID_bounds_amended (V : List PyFloat) (G : List Int) (N : Nat) :
    (V.length ≠ G.length →
      isError (Reporter.sum_per_ID V G N) = true ∧
      isError (Reporter.mean_per_ID V G N) = true) ∧
    (V.length = G.length → (∀ g ∈ G, -(N : Int) ≤ g) → (∃ g ∈ G, (N : Int) ≤ g) →
      isError (Reporter.sum_per_ID V G N) = true ∧
      isError (Reporter.mean_per_ID V G N) = true) := by
  constructor
  · intro hne
    constructor
    · rw [Reporter.sum_per_ID, if_neg hne]
      rfl
    · rw [Reporter.mean_per_ID, if_neg hne]
      rfl
  · intro hlen hall hex
    have hex2 : ∃ p ∈ V.zip G, (N : Int) ≤ p.2 := by
      rcases hex with ⟨g, hg, hgn⟩
      rcases mem_zip_right V G hlen g hg with ⟨v, hv⟩
      exact ⟨(v, g), hv, hgn⟩
    have hall2 : ∀ p ∈ V.zip G, -(N : Int) ≤ p.2 := by
      intro p hp
      obtain ⟨a, b⟩ := p
      exact hall b (List.of_mem_zip hp).2
    constructor
    · rw [Reporter.sum_per_ID, if_pos hlen]
      exact sumLoop_err N _ _ hall2 hex2
    · rw [Reporter.mean_per_ID, if_pos hlen]
      rw [isError_map]
      exact meanLoop_err N _ _ _ hall2 hex2

/-- C3 counterexample: the group id -1 lies outside [0, 2), yet neither
reducer fails on values [5] with ids [-1]: the id wraps to the last slot,
sum_per_ID returns [0, 5] and mean_per_ID returns [NaN, 5]. -/
theorem per_ID_bounds_counterexample :
    Reporter.sum_per_ID [.fin 5] [-1] 2 = Except.ok [.fin 0, .fin 5] ∧
    Reporter.mean_per_ID [.fin 5] [-1] 2 = Except.ok [.nan, .fin 5] := by
  constructor
  · norm_num [Reporter.sum_per_ID, Reporter.sumLoop, Reporter.idxOf, PyFloat.add,
      List.replicate, List.set]
  · norm_num [Reporter.mean_per_ID, Reporter.meanLoop, Reporter.idxOf, PyFloat.add,
      PyFloat.div, Except.map, List.replicate, List.set]

/-- Witness for per_ID_bounds_amended: a length mismatch ([5] against []) and
an out-of-range id (3 with group count 2) both make both reducers fail. -/
theorem per_ID_bounds_amended_witness :
    (isError (Reporter.sum_per_ID [.fin 5] [] 2) = true ∧
      isError (Reporter.mean_per_ID [.fin 5] [] 2) = true) ∧
    (isError (Reporter.sum_per_ID [.fin 1, .fin 2] [0, 3] 2) = true ∧
      isError (Reporter.mean_per_ID [.fin 1, .fin 2] [0, 3] 2) = true) :=
  ⟨(per_ID_bounds_amended [.fin 5] [] 2).1 (by decide),
   (per_ID_bounds_amended [.fin 1, .fin 2] [0, 3] 2).2 (by decide) (by decide)
     ⟨3, by decide, by decide⟩⟩

/-- C5: for equal-length arrays whose group ids all lie in [0, N),
sum_per_ID returns the length-N array whose slot g holds the exact sum of
the values whose id equals g, a sum that is 0 for a group no index maps
to; in particular sum_per_ID([1,2,3,4], [0,1,0,1], 2) = [4, 6]. -/
theorem sum_per_ID_spec_claim :
    (∀ (V : List ℚ) (G : List Int) (N : Nat),
      V.length = G.length → (∀ g ∈ G, 0 ≤ g ∧ g < (N : Int)) →
      Reporter.sum_per_ID (V.map PyFloat.fin) G N
        = Except.ok ((List.range N).map (fun g => PyFloat.fin (sumSpec V G g))) ∧
      (∀ g, g < N → countSpec G g = 0 → sumSpec V G g = 0)) ∧
    Reporter.sum_per_ID [.fin 1, .fin 2, .fin 3, .fin 4] [0, 1, 0, 1] 2
      = Except.ok [.fin 4, .fin 6] := by
  constructor
  · intro V G N hlen hids
    exact ⟨sum_per_ID_eq V G N hlen hids, fun g _ hc => sumSpec_zero V G g hc⟩
  · norm_num [Reporter.sum_per_ID, Reporter.sumLoop, Reporter.idxOf, PyFloat.add,
      List.replicate, List.set]

/-- Witness for sum_per_ID_spec_claim at the spec scenario values. -/
theorem sum_per_ID_spec_claim_witness :
    Reporter.sum_per_ID ([1, 2, 3, 4].map PyFloat.fin) [0, 1, 0, 1] 2
      = Except.ok ((List.range 2).map
          (fun g => PyFloat.fin (sumSpec [1, 2, 3, 4] [0, 1, 0, 1] g))) :=
  (sum_per_ID_spec_claim.1 [1, 2, 3, 4] [0, 1, 0, 1] 2 (by decide) (by decide)).1

/-- C6: under the same preconditions, mean_per_ID returns per slot g the
value sum_per_ID yields at g divided by the number of indices with id g,
and that slot is non-finite exactly when the count is zero. -/
theorem mean_per_ID_spec_claim (V : List ℚ) (G : List Int) (N : Nat)
    (hlen : V.length = G.length) (hids : ∀ g ∈ G, 0 ≤ g ∧ g < (N : Int)) :
    Reporter.mean_per_ID (V.map PyFloat.fin) G N
      = Except.ok ((List.range N).map (fun g =>
          PyFloat.div (PyFloat.fin (sumSpec V G g))
            (PyFloat.fin ((countSpec G g : Nat) : ℚ)))) ∧
    Reporter.sum_per_ID (V.map PyFloat.fin) G N
      = Except.ok ((List.range N).map (fun g => PyFloat.fin (sumSpec V G g))) ∧
    (∀ g, g < N →
      (PyFloat.isFinite (PyFloat.div (PyFloat.fin (sumSpec V G g))
        (PyFloat.fin ((countSpec G g : Nat) : ℚ))) = false ↔ countSpec G g = 0)) := by
  refine ⟨mean_per_ID_eq V G N hlen hids, sum_per_ID_eq V G N hlen hids, ?_⟩
  intro g hg
  by_cases hc : countSpec G g = 0
  · have hs : sumSpec V G g = 0 := sumSpec_zero V G g hc
    rw [hs, hc]
    simp [PyFloat.div, PyFloat.isFinite]
  · have hcq : ((countSpec G g : Nat) : ℚ) ≠ 0 := by exact_mod_cast hc
    simp [PyFloat.div, hcq, PyFloat.isFinite, hc]

/-- Witness for mean_per_ID_spec_claim with group count 3, so group 2 is
empty and its mean slot is non-finite. -/
theorem mean_per_ID_spec_claim_witness :
    Reporter.mean_per_ID ([1, 2, 3, 4].map PyFloat.fin) [0, 1, 0, 1] 3
      = Except.ok ((List.range 3).map (fun g =>
          PyFloat.div (PyFloat.fin (sumSpec [1, 2, 3, 4] [0, 1, 0, 1] g))
            (PyFloat.fin ((countSpec [0, 1, 0, 1] g : Nat) : ℚ)))) ∧
    Reporter.sum_per_ID ([1, 2, 3, 4].map PyFloat.fin) [0, 1, 0, 1] 3
      = Except.ok ((List.range 3).map
          (fun g => PyFloat.fin (sumSpec [1, 2, 3, 4] [0, 1, 0, 1] g))) ∧
    (∀ g, g < 3 →
      (PyFloat.isFinite (PyFloat.div (PyFloat.fin (sumSpec [1, 2, 3, 4] [0, 1, 0, 1] g))
        (PyFloat.fin ((countSpec [0, 1, 0, 1] g : Nat) : ℚ))) = false
        ↔ countSpec [0, 1, 0, 1] g = 0)) :=
  mean_per_ID_spec_claim [1, 2, 3, 4] [0, 1, 0, 1] 3 (by decide) (by decide)

/-- C2 (amended): validation only reaches values that are unwrapped — a
numpy value of size one (checked after `.item()`, so an infinite float
there is rejected before buffering) and the elements of a Python list;
every other value, in particular a plain Python float, is buffered on the
save path without any check, so a buffered scalar can be infinite. -/
theorem report_value_validation_amended :
    (∀ (m : StepInput) (name : RName) (conf : Conf) (st : RState) (s : Bool),
      Reporter.report_value m name (.vnd [.inf s]) conf st
        = (st, Except.error "AssertionError: value is infinite")) ∧
    (∀ (m : StepInput) (nm : String) (st : RState) (conf : Conf) (f : PyFloat),
      conf.save = some "save" → lookupA st.vars nm = none →
      Reporter.report_value m (.s nm) (.vfloat f) conf st
        = (⟨setA st.vars nm (.flat [.vfloat f]), st.timesteps, st.events⟩, Except.ok ())) := by
  constructor
  · intro m name conf st s
    rfl
  · intro m nm st conf f hsave hlk
    obtain ⟨csave, cfmt, cio, cfreq, cfn, cty, cvn, csp, cids, csc⟩ := conf
    simp only at hsave
    subst hsave
    show Reporter.save_var (RName.s nm) (PyVal.vfloat f) st = _
    rw [Reporter.save_var, hlk]

/-- C2 counterexample: a plain Python float infinity submitted on the save
path of report_value is buffered with no validation error, so the
ValueStore holds an infinite scalar, contradicting the claim. -/
theorem report_value_validation_counterexample :
    Reporter.report_value ⟨"t", 1, []⟩ (.s "x") (.vfloat (.inf false))
        ⟨some "save", none, none, none, some none, "farmer", "v", none, none, none⟩
        ⟨[], [], []⟩
      = (⟨[("x", .flat [.vfloat (.inf false)])], [], []⟩, Except.ok ()) ∧
    PyFloat.isFinite (.inf false) = false :=
  ⟨rfl, rfl⟩

/-- Witness for report_value_validation_amended: an infinite numpy scalar
is rejected, while a plain infinite Python float is buffered. -/
theorem report_value_validation_amended_witness :
    Reporter.report_value ⟨"t", 1, []⟩ (.s "x") (.vnd [.inf true])
        ⟨some "save", none, none, none, some none, "farmer", "v", none, none, none⟩
        ⟨[], [], []⟩
      = (⟨[], [], []⟩, Except.error "AssertionError: value is infinite") ∧
    Reporter.report_value ⟨"t", 1, []⟩ (.s "y") (.vfloat (.inf true))
        ⟨some "save", none, none, none, some none, "farmer", "v", none, none, none⟩
        ⟨[], [], []⟩
      = (⟨[("y", .flat [.vfloat (.inf true)])], [], []⟩, Except.ok ()) :=
  ⟨report_value_validation_amended.1 ⟨"t", 1, []⟩ (.s "x")
      ⟨some "save", none, none, none, some none, "farmer", "v", none, none, none⟩
      ⟨[], [], []⟩ true,
   report_value_validation_amended.2 ⟨"t", 1, []⟩ "y" ⟨[], [], []⟩
      ⟨some "save", none, none, none, some none, "farmer", "v", none, none, none⟩
      (.inf true) rfl rfl⟩

/- Shared computation of a successful npy export. -/
theorem export_npy_eq (name : String) (value : PyVal) (conf : Conf) (st : RState)
    (t : String) (hfmt : conf.format = some "npy")
    (hlast : st.timesteps.getLast? = some t) :
    Reporter.export_value name value conf st
      = (⟨st.vars, st.timesteps, st.events ++ [FSEvent.mkdir name,
          FSEvent.write name ((if conf.frequency = some "initial_only" then "initial"
            else stripSep t) ++ ".npy")]⟩, Except.ok ()) := by
  by_cases hfr : conf.frequency = some "initial_only"
  · simp [Reporter.export_value, hfmt, hfr]
  · simp [Reporter.export_value, hfmt, hfr, hlast]

/-- C4 (amended): the snapshot filename is initial exactly when the
directive carries a frequency key equal to initial_only; the initial_only
flag itself plays no role in the name, and every other export is named by
the last recorded timestamp with dash and colon characters removed. -/
theorem export_filename_amended (name : String) (value : PyVal) (conf : Conf) (st : RState)
    (t : String) (hfmt : conf.format = some "npy")
    (hlast : st.timesteps.getLast? = some t) :
    Reporter.export_value name value conf st
      = (⟨st.vars, st.timesteps, st.events ++ [FSEvent.mkdir name,
          FSEvent.write name ((if conf.frequency = some "initial_only" then "initial"
            else stripSep t) ++ ".npy")]⟩, Except.ok ()) :=
  export_npy_eq name value conf st t hfmt hlast

/-- C4 counterexample: a directive with initial_only set (and no frequency
key) exports a file named by the stripped timestamp, not initial. -/
theorem export_filename_counterexample :
    Reporter.export_value "x" (.vint 1)
        ⟨some "export", some "npy", some true, none, some none, "farmer", "v",
          none, none, none⟩
        ⟨[], ["2000-01-01T00:00:00"], []⟩
      = (⟨[], ["2000-01-01T00:00:00"],
          [FSEvent.mkdir "x", FSEvent.write "x" "20000101T000000.npy"]⟩, Except.ok ()) ∧
    "20000101T000000.npy" ≠ "initial.npy" :=
  ⟨rfl, by decide⟩

/-- Witness for export_filename_amended: a directive with a frequency key
equal to initial_only gets the initial filename. -/
theorem export_filename_amended_witness :
    Reporter.export_value "x" (.vint 1)
        ⟨some "export", some "npy", none, some "initial_only", some none, "farmer", "v",
          none, none, none⟩
        ⟨[], ["2000-01-01T00:00:00"], []⟩
      = (⟨[], ["2000-01-01T00:00:00"],
          [FSEvent.mkdir "x", FSEvent.write "x"
            ((if (some "initial_only" : Option String) = some "initial_only" then "initial"
              else stripSep "2000-01-01T00:00:00") ++ ".npy")]⟩, Except.ok ()) :=
  export_filename_amended "x" (.vint 1)
    ⟨some "export", some "npy", none, some "initial_only", some none, "farmer", "v",
      none, none, none⟩
    ⟨[], ["2000-01-01T00:00:00"], []⟩ "2000-01-01T00:00:00" rfl rfl

/-- C9: a directive without a format key makes export_value fail with a
configuration error whose message contains the directive name, and the
tabular path of report fails the same way for a buffered series whose
config entry lacks a format key. -/
theorem missing_format_claim :
    (∀ (name : String) (value : PyVal) (conf : Conf) (st : RState),
      conf.format = none →
      Reporter.export_value name value conf st
        = (⟨st.vars, st.timesteps, st.events ++ [FSEvent.mkdir name]⟩,
            Except.error (missing_format_msg name)) ∧
      List.IsInfix name.data (missing_format_msg name).data) ∧
    (∀ (nm : String) (v : PyVal) (vs : List PyVal) (conf : Conf)
      (entries : List (String × Conf)) (ts : List String) (evs : List FSEvent),
      lookupA entries nm = some conf → conf.format = none →
      (Reporter.report (some entries) ⟨[(nm, .flat (v :: vs))], ts, evs⟩).2
        = Except.error (table_format_msg nm) ∧
      List.IsInfix nm.data (table_format_msg nm).data) := by
  constructor
  · intro name value conf st hfmt
    constructor
    · simp [Reporter.export_value, hfmt]
    · exact ⟨("Export format must be specified for ").data,
        (" in config file (npy/csv/xlsx).").data,
        by simp [missing_format_msg, String.data_append]⟩
  · intro nm v vs conf entries ts evs hlk hfmt
    constructor
    · cases hit : is_iterable v
      · simp [Reporter.report, Reporter.report_loop, Reporter.build_table, hit, hlk, hfmt]
      · simp [Reporter.report, Reporter.report_loop, Reporter.build_table, hit, hlk, hfmt]
    · exact ⟨("Key format not specified in config file for ").data, [],
        by simp [table_format_msg, String.data_append]⟩

/-- Witness for missing_format_claim at a concrete directive named data
with no format key, for both the snapshot and the tabular path. -/
theorem missing_format_claim_witness :
    (Reporter.export_value "data" (.vint 1)
        ⟨some "export", none, none, none, some none, "farmer", "v", none, none, none⟩
        ⟨[], ["t"], []⟩
      = (⟨[], ["t"], [FSEvent.mkdir "data"]⟩,
          Except.error (missing_format_msg "data")) ∧
      List.IsInfix "data".data (missing_format_msg "data").data) ∧
    ((Reporter.report
        (some [("data", ⟨some "save", none, none, none, some none, "farmer", "v",
          none, none, none⟩)])
        ⟨[("data", .flat [.vint 1])], ["t"], []⟩).2
      = Except.error (table_format_msg "data") ∧
      List.IsInfix "data".data (table_format_msg "data").data) :=
  ⟨missing_format_claim.1 "data" (.vint 1)
      ⟨some "export", none, none, none, some none, "farmer", "v", none, none, none⟩
      ⟨[], ["t"], []⟩ rfl,
   missing_format_claim.2 "data" (.vint 1) [] 
      ⟨some "save", none, none, none, some none, "farmer", "v", none, none, none⟩
      [("data", ⟨some "save", none, none, none, some none, "farmer", "v",
        none, none, none⟩)] ["t"] [] rfl rfl⟩

/-- C10: export_value logs the creation of the per-name folder before the
format key is checked — every call appends the mkdir event first, and on
the missing-format error path the call fails with that side effect
already performed. -/
theorem export_mkdir_before_format_check :
    (∀ (name : String) (value : PyVal) (conf : Conf) (st : RState),
      ∃ tail, ((Reporter.export_value name value conf st).1).events
        = st.events ++ FSEvent.mkdir name :: tail) ∧
    (∀ (name : String) (value : PyVal) (conf : Conf) (st : RState),
      conf.format = none →
      Reporter.export_value name value conf st
        = (⟨st.vars, st.timesteps, st.events ++ [FSEvent.mkdir name]⟩,
            Except.error (missing_format_msg name))) := by
  constructor
  · intro name value conf st
    rcases hfmt : conf.format with _ | fmt
    · exact ⟨[], by simp [Reporter.export_value, hfmt]⟩
    · by_cases hfr : conf.frequency = some "initial_only"
      · by_cases hnpy : fmt = "npy"
        · exact ⟨[FSEvent.write name ("initial" ++ ".npy")],
            by simp [Reporter.export_value, hfmt, hfr, hnpy]⟩
        · by_cases hcsv : fmt = "csv"
          · rcases hci : csv_items value with e | l
            · exact ⟨[], by simp [Reporter.export_value, hfmt, hfr, hnpy, hcsv, hci]⟩
            · exact ⟨[FSEvent.write name ("initial" ++ ".csv")],
                by simp [Reporter.export_value, hfmt, hfr, hnpy, hcsv, hci]⟩
          · exact ⟨[], by simp [Reporter.export_value, hfmt, hfr, hnpy, hcsv]⟩
      · rcases hlast : st.timesteps.getLast? with _ | t
        · exact ⟨[], by simp [Reporter.export_value, hfmt, hfr, hlast]⟩
        · by_cases hnpy : fmt = "npy"
          · exact ⟨[FSEvent.write name (stripSep t ++ ".npy")],
              by simp [Reporter.export_value, hfmt, hfr, hlast, hnpy]⟩
          · by_cases hcsv : fmt = "csv"
            · rcases hci : csv_items value with e | l
              · exact ⟨[],
                  by simp [Reporter.export_value, hfmt, hfr, hlast, hnpy, hcsv, hci]⟩
              · exact ⟨[FSEvent.write name (stripSep t ++ ".csv")],
                  by simp [Reporter.export_value, hfmt, hfr, hlast, hnpy, hcsv, hci]⟩
            · exact ⟨[], by simp [Reporter.export_value, hfmt, hfr, hlast, hnpy, hcsv]⟩
  · intro name value conf st hfmt
    simp [Reporter.export_value, hfmt]

/-- Witness for export_mkdir_before_format_check at a concrete call with
no format key: the mkdir event is logged and the call errors. -/
theorem export_mkdir_before_format_check_witness :
    (∃ tail, ((Reporter.export_value "w" (.vint 1)
        ⟨some "export", none, none, none, some none, "farmer", "v", none, none, none⟩
        ⟨[], ["t"], []⟩).1).events = FSEvent.mkdir "w" :: tail) ∧
    Reporter.export_value "w" (.vint 1)
        ⟨some "export", none, none, none, some none, "farmer", "v", none, none, none⟩
        ⟨[], ["t"], []⟩
      = (⟨[], ["t"], [FSEvent.mkdir "w"]⟩, Except.error (missing_format_msg "w")) :=
  ⟨export_mkdir_before_format_check.1 "w" (.vint 1)
      ⟨some "export", none, none, none, some none, "farmer", "v", none, none, none⟩
      ⟨[], ["t"], []⟩,
   export_mkdir_before_format_check.2 "w" (.vint 1)
      ⟨some "export", none, none, none, some none, "farmer", "v", none, none, none⟩
      ⟨[], ["t"], []⟩ rfl⟩

theorem lookupA_setA {α : Type} : ∀ (l : List (String × α)) (k : String) (v : α),
    lookupA (setA l k v) k = some v
  | [], k, v => by simp [setA, lookupA]
  | p :: rest, k, v => by
    by_cases h : p.1 = k
    · simp [setA, lookupA, h]
    · simp [setA, lookupA, h, lookupA_setA rest k v]

/- Effect of report_value on the save path of a non-split directive:
   the flat series for the name grows by the processed value; the
   export side (for save+export with a usable format) only appends
   filesystem events. -/
theorem report_value_save_effect (nm sv : String) (fm fq : Option String)
    (b sp : Option Bool) (ty vn : String) (m : StepInput) (raw w : PyVal) (st : RState)
    (hsv : sv = "save" ∨ (sv = "save+export" ∧ fm = some "npy"))
    (hunwrap : Reporter.unwrap_value raw = Except.ok w)
    (hne : st.timesteps ≠ [])
    (acc : List PyVal) (hser : varSeries st nm = some acc) :
    ∃ evs, Reporter.report_value m (.s nm) raw
        ⟨some sv, fm, b, fq, some none, ty, vn, sp, none, none⟩ st
      = (⟨setA st.vars nm (VarEntry.flat (acc ++ [w])), st.timesteps, st.events ++ evs⟩,
          Except.ok ()) := by
  have hacc : (lookupA st.vars nm = none ∧ acc = []) ∨
      lookupA st.vars nm = some (VarEntry.flat acc) := by
    unfold varSeries at hser
    rcases hlk : lookupA st.vars nm with _ | entry
    · rw [hlk] at hser
      refine Or.inl ⟨rfl, ?_⟩
      injection hser with h
      exact h.symm
    · cases entry with
      | flat l =>
        rw [hlk] at hser
        injection hser with h
        rw [h]
        exact Or.inr rfl
      | split d =>
        rw [hlk] at hser
        simp at hser
  have hsavevar : ∀ (tss : List String) (evs2 : List FSEvent),
      Reporter.save_var (.s nm) w ⟨st.vars, tss, evs2⟩
        = (⟨setA st.vars nm (VarEntry.flat (acc ++ [w])), tss, evs2⟩, Except.ok ()) := by
    intro tss evs2
    rcases hacc with ⟨hlk, hae⟩ | hlk
    · subst hae
      simp [Reporter.save_var, hlk]
    · simp [Reporter.save_var, hlk]
  rcases hsv with h | ⟨h, hfm⟩
  · subst h
    refine ⟨[], ?_⟩
    have hrw := hsavevar st.timesteps st.events
    simp [Reporter.report_value, hunwrap, hrw]
  · subst h
    subst hfm
    rcases hgl : st.timesteps.getLast? with _ | t
    · exact absurd (List.getLast?_eq_none_iff.1 hgl) hne
    · have hexp := export_npy_eq nm w
        ⟨some "save+export", some "npy", b, fq, some none, ty, vn, sp, none, none⟩
        st t rfl hgl
      by_cases hb : b = some true
      · subst hb
        by_cases ht : m.current_timestep = 0
        · refine ⟨[FSEvent.mkdir nm, FSEvent.write nm
            ((if fq = some "initial_only" then "initial" else stripSep t) ++ ".npy")], ?_⟩
          have hrw := hsavevar st.timesteps (st.events ++ [FSEvent.mkdir nm,
            FSEvent.write nm
              ((if fq = some "initial_only" then "initial" else stripSep t) ++ ".npy")])
          simp [Reporter.report_value, hunwrap, Reporter.do_export, ht, hexp, hrw]
        · refine ⟨[], ?_⟩
          have hrw := hsavevar st.timesteps st.events
          simp [Reporter.report_value, hunwrap, ht, hrw]
      · refine ⟨[FSEvent.mkdir nm, FSEvent.write nm
          ((if fq = some "initial_only" then "initial" else stripSep t) ++ ".npy")], ?_⟩
        have hrw := hsavevar st.timesteps (st.events ++ [FSEvent.mkdir nm,
          FSEvent.write nm
            ((if fq = some "initial_only" then "initial" else stripSep t) ++ ".npy")])
        simp [Reporter.report_value, hunwrap, Reporter.do_export, hb, hexp, hrw]

/- Effect of one step for a single-directive config on the save path. -/
theorem step_save_effect (nm ty vn sv : String) (fm fq : Option String) (b sp : Option Bool)
    (inp : StepInput) (st : RState) (A : AgentColl) (raw w : PyVal)
    (hsv : sv = "save" ∨ (sv = "save+export" ∧ fm = some "npy"))
    (hsp : sp ≠ some true)
    (hcol : lookupA inp.agents ty = some A)
    (hattr : lookupA A.attrs vn = some raw)
    (hunwrap : Reporter.unwrap_value raw = Except.ok w)
    (acc : List PyVal) (hser : varSeries st nm = some acc) :
    ∃ evs, Reporter.step
        (some [(nm, ⟨some sv, fm, b, fq, some none, ty, vn, sp, none, none⟩)]) inp st
      = (⟨setA st.vars nm (VarEntry.flat (acc ++ [w])), st.timesteps ++ [inp.current_time],
          st.events ++ evs⟩, Except.ok ()) := by
  have hser1 : varSeries ⟨st.vars, st.timesteps ++ [inp.current_time], st.events⟩ nm
      = some acc := hser
  obtain ⟨evs, hrv⟩ := report_value_save_effect nm sv fm fq b sp ty vn inp raw w
    ⟨st.vars, st.timesteps ++ [inp.current_time], st.events⟩ hsv hunwrap (by simp) acc hser1
  refine ⟨evs, ?_⟩
  have hext : Reporter.extract_agent_data inp nm
      ⟨some sv, fm, b, fq, some none, ty, vn, sp, none, none⟩
      ⟨st.vars, st.timesteps ++ [inp.current_time], st.events⟩
      = (⟨setA st.vars nm (VarEntry.flat (acc ++ [w])), st.timesteps ++ [inp.current_time],
          st.events ++ evs⟩, Except.ok ()) := by
    simp only [Reporter.extract_agent_data, hcol, hattr]
    rw [if_neg hsp]
    simp only [Reporter.parse_agent_data]
    exact hrv
  simp only [Reporter.step, Reporter.run_directives, hext]

/- Running the saving directive over successive steps appends the
   processed values in call order. -/
theorem run_save_series (nm ty vn sv : String) (fm fq : Option String) (b sp : Option Bool)
    (hsv : sv = "save" ∨ (sv = "save+export" ∧ fm = some "npy"))
    (hsp : sp ≠ some true) :
    ∀ (pairs : List (StepInput × PyVal)) (st : RState) (acc : List PyVal),
    (∀ p ∈ pairs, ∃ A raw, lookupA p.1.agents ty = some A ∧
      lookupA A.attrs vn = some raw ∧ Reporter.unwrap_value raw = Except.ok p.2) →
    varSeries st nm = some acc →
    ∃ st2, Reporter.run_steps
        (some [(nm, ⟨some sv, fm, b, fq, some none, ty, vn, sp, none, none⟩)])
        (pairs.map Prod.fst) st = (st2, Except.ok ()) ∧
      varSeries st2 nm = some (acc ++ pairs.map Prod.snd)
  | [], st, acc, _, hser => ⟨st, by simp [Reporter.run_steps], by simpa using hser⟩
  | p :: rest, st, acc, hp, hser => by
    obtain ⟨A, raw, hcol, hattr, hun⟩ := hp p (by simp)
    obtain ⟨evs, hstep⟩ := step_save_effect nm ty vn sv fm fq b sp p.1 st A raw p.2
      hsv hsp hcol hattr hun acc hser
    have hser2 : varSeries ⟨setA st.vars nm (VarEntry.flat (acc ++ [p.2])),
        st.timesteps ++ [p.1.current_time], st.events ++ evs⟩ nm = some (acc ++ [p.2]) := by
      simp [varSeries, lookupA_setA]
    obtain ⟨st2, hrun, hser3⟩ := run_save_series nm ty vn sv fm fq b sp hsv hsp rest _
      (acc ++ [p.2]) (fun q hq => hp q (by simp [hq])) hser2
    refine ⟨st2, ?_, ?_⟩
    · simp only [List.map_cons, Reporter.run_steps, hstep, hrun]
    · simpa [List.append_assoc] using hser3

/-- C7: for a non-split directive whose save key includes save (save
alone, or save+export with a usable format), a run of k successful steps
starting with no buffered entry for the name leaves a flat ValueSeries of
length exactly k holding the k processed values in call order, whatever
the value of the initial_only flag, which gates only the export side. -/
theorem save_series_claim (nm ty vn sv : String) (fm fq : Option String) (b sp : Option Bool)
    (pairs : List (StepInput × PyVal)) (st : RState)
    (hsv : sv = "save" ∨ (sv = "save+export" ∧ fm = some "npy"))
    (hsp : sp ≠ some true)
    (hpairs : ∀ p ∈ pairs, ∃ A raw, lookupA p.1.agents ty = some A ∧
      lookupA A.attrs vn = some raw ∧ Reporter.unwrap_value raw = Except.ok p.2)
    (hser : varSeries st nm = some []) :
    ∃ st2, Reporter.run_steps
        (some [(nm, ⟨some sv, fm, b, fq, some none, ty, vn, sp, none, none⟩)])
        (pairs.map Prod.fst) st = (st2, Except.ok ()) ∧
      varSeries st2 nm = some (pairs.map Prod.snd) ∧
      (pairs.map Prod.snd).length = (pairs.map Prod.fst).length := by
  obtain ⟨st2, h1, h2⟩ := run_save_series nm ty vn sv fm fq b sp hsv hsp pairs st []
    hpairs hser
  exact ⟨st2, h1, by simpa using h2, by simp⟩

/-- Witness for save_series_claim: two steps of a save-only directive with
initial_only set buffer a series of length two, in call order. -/
theorem save_series_claim_witness :
    ∃ st2, Reporter.run_steps
        (some [("x", ⟨some "save", none, some true, none, some none, "farmer", "v",
          none, none, none⟩)])
        (([(⟨"t1", 0, [("farmer", ⟨[("v", PyVal.vint 1)], []⟩)]⟩, PyVal.vint 1),
          (⟨"t2", 1, [("farmer", ⟨[("v", PyVal.vint 2)], []⟩)]⟩, PyVal.vint 2)] :
            List (StepInput × PyVal)).map Prod.fst)
        ⟨[], [], []⟩ = (st2, Except.ok ()) ∧
      varSeries st2 "x"
        = some (([(⟨"t1", 0, [("farmer", ⟨[("v", PyVal.vint 1)], []⟩)]⟩, PyVal.vint 1),
            (⟨"t2", 1, [("farmer", ⟨[("v", PyVal.vint 2)], []⟩)]⟩, PyVal.vint 2)] :
              List (StepInput × PyVal)).map Prod.snd) ∧
      ((([(⟨"t1", 0, [("farmer", ⟨[("v", PyVal.vint 1)], []⟩)]⟩, PyVal.vint 1),
          (⟨"t2", 1, [("farmer", ⟨[("v", PyVal.vint 2)], []⟩)]⟩, PyVal.vint 2)] :
            List (StepInput × PyVal)).map Prod.snd).length)
        = ((([(⟨"t1", 0, [("farmer", ⟨[("v", PyVal.vint 1)], []⟩)]⟩, PyVal.vint 1),
            (⟨"t2", 1, [("farmer", ⟨[("v", PyVal.vint 2)], []⟩)]⟩, PyVal.vint 2)] :
              List (StepInput × PyVal)).map Prod.fst).length) :=
  save_series_claim "x" "farmer" "v" "save" none none (some true) none
    ([(⟨"t1", 0, [("farmer", ⟨[("v", PyVal.vint 1)], []⟩)]⟩, PyVal.vint 1),
      (⟨"t2", 1, [("farmer", ⟨[("v", PyVal.vint 2)], []⟩)]⟩, PyVal.vint 2)] :
        List (StepInput × PyVal))
    ⟨[], [], []⟩ (Or.inl rfl) (by simp)
    (by
      intro p hp
      rcases List.mem_cons.1 hp with h | h
      · subst h
        exact ⟨⟨[("v", PyVal.vint 1)], []⟩, PyVal.vint 1, rfl, rfl, rfl⟩
      · rcases List.mem_cons.1 h with h2 | h2
        · subst h2
          exact ⟨⟨[("v", PyVal.vint 2)], []⟩, PyVal.vint 2, rfl, rfl, rfl⟩
        · simp at h2)
    rfl

/- Effect of report_value for an export-only initial_only directive: the
   snapshot is written only when the model timestep is zero; nothing is
   buffered either way. -/
theorem report_value_export_initial (nm ty vn : String) (fq : Option String)
    (m : StepInput) (raw w : PyVal) (st : RState)
    (hunwrap : Reporter.unwrap_value raw = Except.ok w) (t : String)
    (hlast : st.timesteps.getLast? = some t) :
    Reporter.report_value m (.s nm) raw
        ⟨some "export", some "npy", some true, fq, some none, ty, vn, none, none, none⟩ st
      = (if m.current_timestep = 0 then
          (⟨st.vars, st.timesteps, st.events ++ [FSEvent.mkdir nm,
            FSEvent.write nm ((if fq = some "initial_only" then "initial"
              else stripSep t) ++ ".npy")]⟩, Except.ok ())
         else (st, Except.ok ())) := by
  by_cases ht : m.current_timestep = 0
  · rw [if_pos ht]
    have hexp := export_npy_eq nm w
      ⟨some "export", some "npy", some true, fq, some none, ty, vn, none, none, none⟩
      st t rfl hlast
    simp [Reporter.report_value, hunwrap, Reporter.do_export, ht, hexp]
  · rw [if_neg ht]
    simp [Reporter.report_value, hunwrap, ht]

/- Effect of one step for the export-only initial_only directive. -/
theorem step_export_effect (nm ty vn : String) (fq : Option String) (inp : StepInput)
    (st : RState) (A : AgentColl) (raw w : PyVal)
    (hcol : lookupA inp.agents ty = some A)
    (hattr : lookupA A.attrs vn = some raw)
    (hunwrap : Reporter.unwrap_value raw = Except.ok w) :
    Reporter.step
        (some [(nm, ⟨some "export", some "npy", some true, fq, some none, ty, vn,
          none, none, none⟩)]) inp st
      = (if inp.current_timestep = 0 then
          (⟨st.vars, st.timesteps ++ [inp.current_time], st.events ++ [FSEvent.mkdir nm,
            FSEvent.write nm ((if fq = some "initial_only" then "initial"
              else stripSep inp.current_time) ++ ".npy")]⟩, Except.ok ())
         else (⟨st.vars, st.timesteps ++ [inp.current_time], st.events⟩, Except.ok ())) := by
  have hrv := report_value_export_initial nm ty vn fq inp raw w
    ⟨st.vars, st.timesteps ++ [inp.current_time], st.events⟩ hunwrap inp.current_time
    (List.getLast?_concat _)
  have hext : Reporter.extract_agent_data inp nm
      ⟨some "export", some "npy", some true, fq, some none, ty, vn, none, none, none⟩
      ⟨st.vars, st.timesteps ++ [inp.current_time], st.events⟩
      = (if inp.current_timestep = 0 then
          (⟨st.vars, st.timesteps ++ [inp.current_time], st.events ++ [FSEvent.mkdir nm,
            FSEvent.write nm ((if fq = some "initial_only" then "initial"
              else stripSep inp.current_time) ++ ".npy")]⟩, Except.ok ())
         else (⟨st.vars, st.timesteps ++ [inp.current_time], st.events⟩, Except.ok ())) := by
    simp only [Reporter.extract_agent_data, hcol, hattr]
    rw [if_neg (by simp : ¬((none : Option Bool) = some true))]
    simp only [Reporter.parse_agent_data]
    exact hrv
  by_cases ht : inp.current_timestep = 0
  · rw [if_pos ht]
    rw [if_pos ht] at hext
    simp only [Reporter.step, Reporter.run_directives, hext]
  · rw [if_neg ht]
    rw [if_neg ht] at hext
    simp only [Reporter.step, Reporter.run_directives, hext]

/- Steps with nonzero model timestep leave the event log and the
   ValueStore untouched for this directive: they only record times. -/
theorem run_export_skip (nm ty vn : String) (fq : Option String) :
    ∀ (pairs : List (StepInput × PyVal)) (st : RState),
    (∀ p ∈ pairs, p.1.current_timestep ≠ 0) →
    (∀ p ∈ pairs, ∃ A raw, lookupA p.1.agents ty = some A ∧
      lookupA A.attrs vn = some raw ∧ Reporter.unwrap_value raw = Except.ok p.2) →
    ∃ ts2, Reporter.run_steps
        (some [(nm, ⟨some "export", some "npy", some true, fq, some none, ty, vn,
          none, none, none⟩)]) (pairs.map Prod.fst) st
      = (⟨st.vars, st.timesteps ++ ts2, st.events⟩, Except.ok ())
  | [], st, _, _ => ⟨[], by simp [Reporter.run_steps]⟩
  | p :: rest, st, hz, hp => by
    obtain ⟨A, raw, hcol, hattr, hun⟩ := hp p (by simp)
    have hstep := step_export_effect nm ty vn fq p.1 st A raw p.2 hcol hattr hun
    rw [if_neg (hz p (by simp))] at hstep
    obtain ⟨ts2, hrun⟩ := run_export_skip nm ty vn fq rest
      ⟨st.vars, st.timesteps ++ [p.1.current_time], st.events⟩
      (fun q hq => hz q (by simp [hq])) (fun q hq => hp q (by simp [hq]))
    refine ⟨p.1.current_time :: ts2, ?_⟩
    simp only [List.map_cons, Reporter.run_steps, hstep, hrun]
    simp

/-- C8: a directive with initial_only true and savePolicy export writes
its snapshot exactly once over the whole run — during the first step,
where the model timestep is zero — and no later step, all with nonzero
model timestep, ever adds another write for that name. -/
theorem initial_only_exports_once (nm ty vn : String) (fq : Option String)
    (first : StepInput × PyVal) (rest : List (StepInput × PyVal)) (st : RState)
    (h0 : first.1.current_timestep = 0)
    (hrest0 : ∀ p ∈ rest, p.1.current_timestep ≠ 0)
    (hlk : ∀ p ∈ first :: rest, ∃ A raw, lookupA p.1.agents ty = some A ∧
      lookupA A.attrs vn = some raw ∧ Reporter.unwrap_value raw = Except.ok p.2) :
    ∃ st2, Reporter.run_steps
        (some [(nm, ⟨some "export", some "npy", some true, fq, some none, ty, vn,
          none, none, none⟩)]) ((first :: rest).map Prod.fst) st
      = (st2, Except.ok ()) ∧
      writesUnder nm st2.events = writesUnder nm st.events
        ++ [FSEvent.write nm ((if fq = some "initial_only" then "initial"
            else stripSep first.1.current_time) ++ ".npy")] ∧
      st2.vars = st.vars := by
  obtain ⟨A, raw, hcol, hattr, hun⟩ := hlk first (by simp)
  have hstep := step_export_effect nm ty vn fq first.1 st A raw first.2 hcol hattr hun
  rw [if_pos h0] at hstep
  obtain ⟨ts2, hrun⟩ := run_export_skip nm ty vn fq rest
    ⟨st.vars, st.timesteps ++ [first.1.current_time], st.events ++ [FSEvent.mkdir nm,
      FSEvent.write nm ((if fq = some "initial_only" then "initial"
        else stripSep first.1.current_time) ++ ".npy")]⟩
    hrest0 (fun q hq => hlk q (by simp [hq]))
  refine ⟨⟨st.vars, st.timesteps ++ [first.1.current_time] ++ ts2,
    st.events ++ [FSEvent.mkdir nm, FSEvent.write nm
      ((if fq = some "initial_only" then "initial"
        else stripSep first.1.current_time) ++ ".npy")]⟩, ?_, ?_, rfl⟩
  · simp only [List.map_cons, Reporter.run_steps, hstep, hrun]
  · simp [writesUnder, List.filter_append, isWriteUnder]

/-- Witness for initial_only_exports_once: two steps, model timesteps 0
then 1; exactly one snapshot write appears, named from the first step. -/
theorem initial_only_exports_once_witness :
    ∃ st2, Reporter.run_steps
        (some [("x", ⟨some "export", some "npy", some true, none, some none, "farmer", "v",
          none, none, none⟩)])
        ((((⟨"2000-01-01T00:00:00", 0, [("farmer", ⟨[("v", PyVal.vint 1)], []⟩)]⟩,
            PyVal.vint 1) :
          StepInput × PyVal) ::
          ([(⟨"2000-01-02T00:00:00", 1, [("farmer", ⟨[("v", PyVal.vint 1)], []⟩)]⟩,
            PyVal.vint 1)] : List (StepInput × PyVal))).map Prod.fst)
        ⟨[], [], []⟩
      = (st2, Except.ok ()) ∧
      writesUnder "x" st2.events = writesUnder "x" (⟨[], [], []⟩ : RState).events
        ++ [FSEvent.write "x" ((if (none : Option String) = some "initial_only" then "initial"
            else stripSep (((⟨"2000-01-01T00:00:00", 0,
              [("farmer", ⟨[("v", PyVal.vint 1)], []⟩)]⟩, PyVal.vint 1) :
                StepInput × PyVal).1.current_time)) ++ ".npy")] ∧
      st2.vars = (⟨[], [], []⟩ : RState).vars :=
  initial_only_exports_once "x" "farmer" "v" none
    ((⟨"2000-01-01T00:00:00", 0, [("farmer", ⟨[("v", PyVal.vint 1)], []⟩)]⟩, PyVal.vint 1) :
      StepInput × PyVal)
    ([(⟨"2000-01-02T00:00:00", 1, [("farmer", ⟨[("v", PyVal.vint 1)], []⟩)]⟩, PyVal.vint 1)] :
      List (StepInput × PyVal))
    ⟨[], [], []⟩ rfl
    (by
      intro p hp
      rcases List.mem_cons.1 hp with h | h
      · subst h
        decide
      · simp at h)
    (by
      intro p hp
      rcases List.mem_cons.1 hp with h | h
      · subst h
        exact ⟨⟨[("v", PyVal.vint 1)], []⟩, PyVal.vint 1, rfl, rfl, rfl⟩
      · rcases List.mem_cons.1 h with h2 | h2
        · subst h2
          exact ⟨⟨[("v", PyVal.vint 1)], []⟩, PyVal.vint 1, rfl, rfl, rfl⟩
        · simp at h2)

/-- C1 (amended): report builds and persists one table per buffered name,
but the dictionary it returns is created empty and never filled: a
successful call hands the caller the empty mapping rather than the
in-memory tabular representation. -/
theorem report_returns_empty_dict (cfg : Option (List (String × Conf))) (st : RState) :
    (Reporter.report cfg st).2 = Except.ok ([] : List (String × RTable)) ∨
    isError (Reporter.report cfg st).2 = true := by
  unfold Reporter.report
  rcases h : Reporter.report_loop cfg st.timesteps st.vars st with ⟨st2, r⟩
  cases r with
  | error e => exact Or.inr rfl
  | ok u => exact Or.inl rfl

/-- C1 counterexample: with a non-empty ValueStore (one buffered series)
and a valid directive, report succeeds yet returns the empty dictionary,
which holds no table for the buffered name, refuting the claim that the
in-memory tabular representation is returned to the caller. -/
theorem report_return_counterexample :
    (Reporter.report
      (some [("x", ⟨some "save", some "csv", none, none, some none, "farmer", "v",
        none, none, none⟩)])
      ⟨[("x", VarEntry.flat [PyVal.vint 1, PyVal.vint 2])], ["a", "b"], []⟩).2
      = Except.ok ([] : List (String × RTable)) ∧
    ([("x", VarEntry.flat [PyVal.vint 1, PyVal.vint 2])] :
      List (String × VarEntry)).length = 1 ∧
    ∀ tbl : RTable, ("x", tbl) ∉ ([] : List (String × RTable)) :=
  ⟨rfl, rfl, by simp⟩
